import Mathlib

/-!
Verification of the pee-easque-tree fetch-and-download engine.

Shallow embedding of the repository's data model and operations:

* the TypeScript frontend (`src/src/App.tsx` together with the type
  declarations of `src/types`) is embedded directly from its source;
* the Rust core crate `ps3-update-core` (UpdateFetcher, DownloadManager,
  title-id cleaning, version ordering, multi-part range planning) is not part
  of the available sources, so its operations are modelled from the
  specification; each such definition carries a doc comment starting
  `Modelled from the spec:`.
-/

/-! Data model, from the TS declarations (`src/types`, file
`src/unnamed/part_002`). -/

/-- The `PackageInfo` record of the TS declarations: one update package
entry. -/
structure PackageInfo where
  version : String
  system_ver : String
  size_bytes : Nat
  size_human : String
  url : String
  sha1 : String
  filename : String
deriving Repr, DecidableEq

/-- The `FetchResult` record of the TS declarations: outcome of
`fetch_updates`. -/
structure FetchResult where
  results : List PackageInfo
  error : Option String
  game_title : String
  cleaned_title_id : String
deriving Repr, DecidableEq

/-- The `ProgressInfo` record of the TS declarations: snapshot returned by
`get_download_progress`.  The floating-point fields are represented over `ℚ`;
no claim computes with them. -/
structure ProgressInfo where
  filename : Option String
  total : Nat
  downloaded : Nat
  percent : ℚ
  speed_bytes_per_sec : ℚ
  speed_human : String
  done : Bool
  error : Option String
deriving Repr, DecidableEq

/-- The `DownloadJob` record of the TS declarations: one tracked download in
the frontend's `downloads` list. -/
structure DownloadJob where
  jobId : String
  package : PackageInfo
  progress : Option ProgressInfo
deriving Repr, DecidableEq

/-! Title-id cleaning.  Modelled from the spec (sections 3 and 8): the Rust
`clean_title_id` is not among the available sources. -/

/-- ASCII uppercase letter, expressed over the character code. -/
def isUpperLetter (c : Char) : Bool := 65 ≤ c.toNat && c.toNat ≤ 90

/-- ASCII digit, expressed over the character code. -/
def isDigitChar (c : Char) : Bool := 48 ≤ c.toNat && c.toNat ≤ 57

/-- Separator and whitespace characters stripped by cleaning: the dash,
underscore, space and tab characters. -/
def isSepChar (c : Char) : Bool :=
  c.toNat = 45 || c.toNat = 95 || c.toNat = 32 || c.toNat = 9

/-- Modelled from the spec: cleaning "strips separators/whitespace and
uppercases" (section 3). -/
def stripUpper (s : String) : String :=
  String.mk ((s.data.filter (fun c => !isSepChar c)).map Char.toUpper)

/-- Modelled from the spec: the canonical TitleId pattern, 9 characters,
a 4-letter prefix followed by 5 digits (section 3). -/
def validTitleId (s : String) : Bool :=
  s.length = 9 && (s.data.take 4).all isUpperLetter
    && (s.data.drop 4).all isDigitChar

/-- Error taxonomy of the core (spec section 7). -/
inductive PS3UpdateError where
  | invalidTitleId
  | networkError (msg : String)
  | xmlParse (msg : String)
  | noUpdatesFound (id : String)
  | jobNotFound
  | ioError (msg : String)
  | cancelled
deriving Repr, DecidableEq

/-- Modelled from the spec: `clean_title_id` strips separators/whitespace,
uppercases, and rejects (never truncates) a result that fails the pattern
(section 3, section 4.1 step 1). -/
def cleanTitleId (raw : String) : Except PS3UpdateError String :=
  let cleaned := stripUpper raw
  if validTitleId cleaned then .ok cleaned else .error .invalidTitleId

/-! Version ordering.  Modelled from the spec (section 4.1 step 6,
section 9): dot-separated numeric-component comparison, strictly descending.
The spec leaves the exact tie-break open (section 9, "open question"); the
model documents descending raw-string comparison as the adopted tie-break,
which realises the ordering of the spec's own worked example in section 8. -/

/-- Numeric value of one dot-separated version component. -/
def parseNumComp (l : List Char) : Nat :=
  l.foldl (fun acc c => if isDigitChar c then acc * 10 + (c.toNat - 48) else acc) 0

/-- Split a character list on the dot character. -/
def splitDot : List Char → List (List Char)
  | [] => [[]]
  | c :: rest =>
      let r := splitDot rest
      if c = '.' then [] :: r
      else
        match r with
        | [] => [[c]]
        | h :: t => (c :: h) :: t

/-- Modelled from the spec: a version string splits on dots into numeric
components (section 4.1 step 6). -/
def versionKey (v : String) : List Nat := (splitDot v.data).map parseNumComp

/-- Plain lexicographic character-list comparison (what the spec warns the
comparator must NOT be, section 4.1 step 6; also the adopted tie-break on
equal numeric keys, read descending). -/
def lexLtChars : List Char → List Char → Bool
  | [], [] => false
  | [], _ :: _ => true
  | _ :: _, [] => false
  | a :: as, b :: bs =>
      if a < b then true else if b < a then false else lexLtChars as bs

/-- Lexicographic comparison of numeric component lists. -/
def lexCompareNat : List Nat → List Nat → Ordering
  | [], [] => .eq
  | [], _ :: _ => .lt
  | _ :: _, [] => .gt
  | a :: as, b :: bs =>
      if a < b then .lt else if b < a then .gt else lexCompareNat as bs

/-- Modelled from the spec: `a` sorts before `b` in the descending output
when its numeric key is greater; on equal keys the adopted tie-break is
descending raw-string order (section 9 leaves the tie-break open). -/
def versionDescBefore (a b : String) : Bool :=
  match lexCompareNat (versionKey a) (versionKey b) with
  | .gt => true
  | .lt => false
  | .eq => lexLtChars b.data a.data

/-- Insertion step of the descending sort. -/
def insertDescBy (bef : α → α → Bool) (a : α) : List α → List α
  | [] => [a]
  | b :: bs => if bef a b then a :: b :: bs else b :: insertDescBy bef a bs

/-- Insertion sort by a strict "comes before" relation. -/
def sortDescBy (bef : α → α → Bool) : List α → List α
  | [] => []
  | a :: as => insertDescBy bef a (sortDescBy bef as)

/-- Modelled from the spec: `fetch_updates` sorts its entries descending by
version under the numeric comparator (section 4.1 step 6). -/
def sortPackages (l : List PackageInfo) : List PackageInfo :=
  sortDescBy (fun p q => versionDescBefore p.version q.version) l

/-! The fetch path.  Modelled from the spec (section 4.1): the Rust
`UpdateFetcher` is not among the available sources.  The vendor endpoint is
abstracted as a function from the cleaned title id to a response. -/

/-- Abstract parse outcome of a vendor response body. -/
inductive ParsedBody where
  | malformed
  | packages (gameTitle : String) (entries : List PackageInfo)
deriving Repr, DecidableEq

/-- Abstract vendor response: HTTP success flag, body emptiness, parse
outcome. -/
structure VendorResponse where
  successStatus : Bool
  emptyBody : Bool
  parsed : ParsedBody
deriving Repr, DecidableEq

/-- Modelled from the spec: `fetch_updates` cleans the id, issues the
request, maps a non-success status or empty body to `NoUpdatesFound`,
malformed content to `XmlParse`, and otherwise returns the sorted entries;
zero parsed entries is success with an empty list (section 4.1). -/
def fetchUpdates (endpoint : String → VendorResponse) (raw : String) :
    Except PS3UpdateError FetchResult :=
  match cleanTitleId raw with
  | .error e => .error e
  | .ok id =>
      let resp := endpoint id
      if !resp.successStatus || resp.emptyBody then .error (.noUpdatesFound id)
      else
        match resp.parsed with
        | .malformed => .error (.xmlParse "malformed update metadata")
        | .packages title entries =>
            .ok { results := sortPackages entries, error := none,
                  game_title := title, cleaned_title_id := id }

/-- User-facing message of each error of the taxonomy; cancellation uses a
distinguished, recognizable string (spec section 7). -/
def errorMessage : PS3UpdateError → String
  | .invalidTitleId => "Invalid title ID"
  | .networkError m => "Network error: " ++ m
  | .xmlParse m => "XML parse error: " ++ m
  | .noUpdatesFound id => "No updates found for " ++ id
  | .jobNotFound => "Job not found"
  | .ioError m => "IO error: " ++ m
  | .cancelled => "Download cancelled"

/-- Modelled from the spec: the `fetch_updates` command surface returns a
`FetchResult` value to the frontend, carrying fetch-path failures in its
`error` field (section 7, "fetch-path failures return synchronously as part
of the fetch call's result"). -/
def fetchUpdatesCommand (endpoint : String → VendorResponse) (raw : String) :
    FetchResult :=
  match fetchUpdates endpoint raw with
  | .ok r => r
  | .error e =>
      { results := [], error := some (errorMessage e),
        game_title := "", cleaned_title_id := "" }

/-! The download manager.  Modelled from the spec (sections 4.2, 5 and 7):
the Rust `DownloadManager` is not among the available sources.  The probe of
step 2 is abstracted as a `ProbeResult` input; transfer-task events
(failure, completion) are explicit state transitions. -/

/-- Download mode requested by, or substituted for, a job (spec section 3). -/
inductive DownloadMode where
  | direct
  | multiPart (numParts : Nat)
deriving Repr, DecidableEq

/-- Per-job progress state, polled by callers (spec section 3). -/
structure ProgressState where
  filename : Option String
  total : Nat
  downloaded : Nat
  done : Bool
  error : Option String
deriving Repr, DecidableEq

/-- One download job of the manager's registry (spec section 3). -/
structure Job where
  url : String
  destPath : String
  mode : DownloadMode
  progress : ProgressState
deriving Repr, DecidableEq

/-- The manager: a registry of jobs keyed by id, plus the id counter. -/
structure Manager where
  jobs : List (String × Job)
  nextId : Nat
deriving Repr, DecidableEq

/-- The manager holding no jobs. -/
def emptyManager : Manager := { jobs := [], nextId := 0 }

/-- Outcome of probing the resource: total length when known, and whether
byte-range requests are supported (spec section 4.2 step 2). -/
structure ProbeResult where
  totalLength : Option Nat
  acceptsRanges : Bool
deriving Repr, DecidableEq

/-- Modelled from the spec: a total is "too small to usefully split" into
`n` parts unless each part can hold at least one byte and there are at least
two parts (the spec fixes no threshold). -/
def usefulSplit (total n : Nat) : Bool := 2 ≤ n && n ≤ total

/-- Ranged multi-part transfer is usable only when the probe advertises
range support and a known, usefully splittable total (spec section 4.2
step 3). -/
def rangesUsable (probe : ProbeResult) (n : Nat) : Bool :=
  probe.acceptsRanges &&
    match probe.totalLength with
    | some t => usefulSplit t n
    | none => false

/-- Modelled from the spec: silent substitution of Direct mode when
MultiPart was requested but is unusable (section 4.2 step 3). -/
def chooseMode (requested : DownloadMode) (probe : ProbeResult) : DownloadMode :=
  match requested with
  | .direct => .direct
  | .multiPart n => if rangesUsable probe n then .multiPart n else .direct

/-- Job ids are derived from the manager's counter. -/
def jobIdOf (n : Nat) : String := "job-" ++ toString n

/-- Progress state of a freshly admitted job. -/
def initialProgress (filename : String) (probe : ProbeResult) : ProgressState :=
  { filename := some filename, total := probe.totalLength.getD 0,
    downloaded := 0, done := false, error := none }

/-- Modelled from the spec: `start_download` admits a new Running job under
the substituted mode and returns its id; the call itself has no error
channel once the job is admitted (section 4.2 steps 3 and 4, section 7). -/
def Manager.startDownload (m : Manager) (url destPath filename : String)
    (requested : DownloadMode) (probe : ProbeResult) : Manager × String :=
  let id := jobIdOf m.nextId
  let job : Job :=
    { url := url, destPath := destPath, mode := chooseMode requested probe,
      progress := initialProgress filename probe }
  ({ jobs := m.jobs ++ [(id, job)], nextId := m.nextId + 1 }, id)

/-- Registry lookup by job id. -/
def Manager.find (m : Manager) (id : String) : Option Job :=
  (m.jobs.find? (fun pr => pr.1 == id)).map (·.2)

/-- Modelled from the spec: `get_progress` returns the current snapshot and
fails with `JobNotFound` for an unknown id (section 4.2). -/
def Manager.getProgress (m : Manager) (id : String) :
    Except PS3UpdateError ProgressState :=
  match m.find id with
  | none => .error .jobNotFound
  | some j => .ok j.progress

/-- The distinguished cancellation error string (spec sections 4.2 and 7). -/
def cancelErrorMessage : String := "Download cancelled"

/-- A cancelled job: done, carrying the cancellation error; already written
bytes remain (spec section 4.2). -/
def cancelJob (j : Job) : Job :=
  { j with progress :=
      { j.progress with done := true, error := some cancelErrorMessage } }

/-- A failed job: done, carrying the first fatal error (spec section 4.2
step 8, section 7). -/
def failJobState (e : String) (j : Job) : Job :=
  { j with progress := { j.progress with done := true, error := some e } }

/-- A successfully completed job: all bytes received, done, no error. -/
def completeJobState (j : Job) : Job :=
  { j with progress :=
      { j.progress with downloaded := j.progress.total, done := true } }

/-- Lift a progress transition to a job transition. -/
def mapProgress (g : ProgressState → ProgressState) (j : Job) : Job :=
  { j with progress := g j.progress }

/-- Apply a transition to every still-running job of the given id; terminal
states are never re-entered (spec section 4.2, state machine). -/
def updateRunning (id : String) (f : Job → Job)
    (jobs : List (String × Job)) : List (String × Job) :=
  jobs.map (fun pr =>
    if pr.1 == id && !pr.2.progress.done then (pr.1, f pr.2) else pr)

/-- Modelled from the spec: `cancel_download` makes the running job Done
with the cancellation-specific error (section 4.2). -/
def Manager.cancelDownload (m : Manager) (id : String) : Manager :=
  { m with jobs := updateRunning id cancelJob m.jobs }

/-- Modelled from the spec: a download-path failure is recorded on the
job's progress state (section 7). -/
def Manager.failJob (m : Manager) (id : String) (e : String) : Manager :=
  { m with jobs := updateRunning id (failJobState e) m.jobs }

/-- Modelled from the spec: successful completion of the transfer. -/
def Manager.completeJob (m : Manager) (id : String) : Manager :=
  { m with jobs := updateRunning id completeJobState m.jobs }

/-- A job in a terminal state (Done, Failed or Cancelled all set the done
flag). -/
def terminalJob (j : Job) : Bool := j.progress.done

/-- Modelled from the spec: `remove_job` discards bookkeeping of a terminal
job, is a no-op for an unknown id, and must not remove a still-running job
(section 4.2). -/
def Manager.removeJob (m : Manager) (id : String) : Manager :=
  { m with jobs := m.jobs.filter (fun pr => !(pr.1 == id && terminalJob pr.2)) }

/-! Multi-part range planning.  Modelled from the spec (section 4.2 step 6):
partition `[0, total)` into `n` contiguous, non-overlapping byte ranges of
near-equal size, the final range absorbing any remainder. -/

/-- Start offset of part `i`. -/
def partStart (total n i : Nat) : Nat := i * (total / n)

/-- One-past-the-end offset of part `i`; the final part absorbs the
remainder. -/
def partStop (total n i : Nat) : Nat :=
  if i = n - 1 then total else (i + 1) * (total / n)

/-- The half-open byte range of part `i`. -/
def partRange (total n i : Nat) : Nat × Nat :=
  (partStart total n i, partStop total n i)

/-- The planned ranges of all `n` parts. -/
def partRangeList (total n : Nat) : List (Nat × Nat) :=
  (List.range n).map (partRange total n)

/-- Size in bytes of part `i`. -/
def partLen (total n i : Nat) : Nat := partStop total n i - partStart total n i

/-- State of the `n` concurrent transfer tasks of one MultiPart job: bytes
contributed so far and the finished flag of each part. -/
structure PartRun where
  bytes : Nat → Nat
  finished : Nat → Bool

/-- Modelled from the spec: the accumulation discipline of section 5 — a
part contributes exactly its range once finished and strictly less while
unfinished (bytes are counted incrementally per received chunk). -/
def partRunValid (total n : Nat) (r : PartRun) : Prop :=
  ∀ i, i < n →
    (r.finished i = true → r.bytes i = partLen total n i) ∧
    (r.finished i = false → r.bytes i < partLen total n i)

/-- Aggregate downloaded-bytes counter across the parts (spec section 5). -/
def runDownloaded (n : Nat) (r : PartRun) : Nat :=
  ∑ i ∈ Finset.range n, r.bytes i

/-- The done flag: set exactly when every part has finished (spec
section 5). -/
def runDone (n : Nat) (r : PartRun) : Bool := (List.range n).all r.finished

/-! The frontend, embedded from `src/src/App.tsx`. -/

/-- JavaScript truthiness of `download.progress?.done`: `false` when the
progress is still `null` (App.tsx line 304). -/
def optDone : Option ProgressInfo → Bool
  | none => false
  | some p => p.done

/-- JavaScript truthiness of the `progress.error` field: `null` and the
empty string are falsy (App.tsx line 312). -/
def strTruthy : Option String → Bool
  | none => false
  | some s => s != ""

/-- One iteration of the loop body of `updateDownloadProgress`
(App.tsx lines 302-319) on a single tracked entry, against an abstract
`get_download_progress` backend.  Returns the updated entry, the
`get_download_progress` invocations issued, and the `remove_download_job`
invocations issued. -/
def updateEntry (poll : String → Except String ProgressInfo)
    (d : DownloadJob) : DownloadJob × List String × List String :=
  if optDone d.progress then (d, [], [])
  else
    match poll d.jobId with
    | .error _ => (d, [d.jobId], [])
    | .ok p =>
        ({ d with progress := some p }, [d.jobId],
          if p.done && !strTruthy p.error then [d.jobId] else [])

/-- The `updateDownloadProgress` poll pass of App.tsx lines 298-324:
the updated downloads list, the `get_download_progress` invocations and the
`remove_download_job` invocations of one pass. -/
def updateDownloadProgress (poll : String → Except String ProgressInfo)
    (downloads : List DownloadJob) :
    List DownloadJob × List String × List String :=
  (downloads.map (fun d => (updateEntry poll d).1),
   downloads.flatMap (fun d => (updateEntry poll d).2.1),
   downloads.flatMap (fun d => (updateEntry poll d).2.2))

/-- The `cancelDownload` handler of App.tsx lines 289-296, against an
abstract `cancel_download` backend: on success the job is dropped from the
tracked list; the handler issues one `cancel_download` invocation and no
`remove_download_job` invocation.  Returns the new list, the
`cancel_download` invocations and the `remove_download_job` invocations. -/
def cancelDownloadFrontend (cancel : String → Except String Unit)
    (jobId : String) (downloads : List DownloadJob) :
    List DownloadJob × List String × List String :=
  match cancel jobId with
  | .ok _ => (downloads.filter (fun d => !(d.jobId == jobId)), [jobId], [])
  | .error _ => (downloads, [jobId], [])

/-- The invocation payload the frontend builds for `start_download`
(App.tsx lines 267-274). -/
structure StartDownloadArgs where
  url : String
  filename : String
  downloadPath : String
  gameTitle : String
  titleId : String
  multiPart : Bool
deriving Repr, DecidableEq

/-- The argument record of App.tsx lines 267-274. -/
def mkStartArgs (sr : FetchResult) (pkg : PackageInfo)
    (downloadPath : String) (multiPart : Bool) : StartDownloadArgs :=
  { url := pkg.url, filename := pkg.filename, downloadPath := downloadPath,
    gameTitle := sr.game_title, titleId := sr.cleaned_title_id,
    multiPart := multiPart }

/-- The `startDownload` handler of App.tsx lines 263-287, against an
abstract `start_download` backend: with a search result present it issues
one invocation carrying the six parameters and, on success, appends the
returned job id to the tracked list with `progress: null`.  Returns the new
list and the invocations issued. -/
def startDownloadFrontend (start : StartDownloadArgs → Except String String)
    (searchResult : Option FetchResult) (pkg : PackageInfo)
    (downloadPath : String) (multiPart : Bool)
    (downloads : List DownloadJob) :
    List DownloadJob × List StartDownloadArgs :=
  match searchResult with
  | none => (downloads, [])
  | some sr =>
      let args := mkStartArgs sr pkg downloadPath multiPart
      match start args with
      | .ok jobId =>
          (downloads ++ [{ jobId := jobId, package := pkg, progress := none }],
           [args])
      | .error _ => (downloads, [args])

/-! Concrete values used by witnesses and counterexamples. -/

/-- A package entry carrying only a version, for the ordering example. -/
def pkgWithVersion (v : String) : PackageInfo :=
  { version := v, system_ver := "4.90", size_bytes := 0, size_human := "0 B",
    url := "", sha1 := "", filename := "" }

/-- A progress snapshot that is done with the empty-string error. -/
def emptyErrorProgress : ProgressInfo :=
  { filename := none, total := 100, downloaded := 100, percent := 100,
    speed_bytes_per_sec := 0, speed_human := "0 B/s", done := true,
    error := some "" }

/-- A progress snapshot that is done with no error. -/
def doneOkProgress : ProgressInfo :=
  { filename := none, total := 100, downloaded := 100, percent := 100,
    speed_bytes_per_sec := 0, speed_human := "0 B/s", done := true,
    error := none }

/-- A tracked entry that has not yet been polled. -/
def trackedJob1 : DownloadJob :=
  { jobId := "j1", package := pkgWithVersion "1.00", progress := none }

/-- A tracked entry whose recorded progress is done. -/
def doneJob : DownloadJob :=
  { jobId := "j2", package := pkgWithVersion "1.00",
    progress := some doneOkProgress }

/-! Helper lemmas about title-id cleaning. -/

/-- Characters that survive validation are fixed by `Char.toUpper`. -/
lemma toUpper_eq_self_of_le (c : Char) (h : c.toNat ≤ 90) : c.toUpper = c := by
  simp [Char.toUpper]
  omega

/-- Characters that survive validation are not separators. -/
lemma not_sep_of_valid_char (c : Char)
    (h : isUpperLetter c = true ∨ isDigitChar c = true) :
    isSepChar c = false := by
  simp [isUpperLetter, isDigitChar] at h
  simp [isSepChar]
  omega

/-- Every character of a string passing `validTitleId` is an uppercase
letter or a digit. -/
lemma valid_char_of_validTitleId (s : String) (h : validTitleId s = true) :
    ∀ c ∈ s.data, isUpperLetter c = true ∨ isDigitChar c = true := by
  intro c hc
  simp only [validTitleId, Bool.and_eq_true, List.all_eq_true] at h
  obtain ⟨⟨-, hup⟩, hdig⟩ := h
  rcases List.mem_append.mp (by rw [List.take_append_drop 4 s.data]; exact hc)
      with h4 | h5
  · exact Or.inl (hup c h4)
  · exact Or.inr (hdig c h5)

/-- A string passing `validTitleId` is a fixed point of `stripUpper`. -/
lemma stripUpper_fixed (s : String) (h : validTitleId s = true) :
    stripUpper s = s := by
  have hchar := valid_char_of_validTitleId s h
  have hfilter : s.data.filter (fun c => !isSepChar c) = s.data := by
    rw [List.filter_eq_self]
    intro c hc
    simp [not_sep_of_valid_char c (hchar c hc)]
  have hmap : s.data.map Char.toUpper = s.data := by
    conv_rhs => rw [← List.map_id s.data]
    apply List.map_congr_left
    intro c hc
    apply toUpper_eq_self_of_le
    rcases hchar c hc with h' | h' <;>
      simp [isUpperLetter, isDigitChar] at h' <;> omega
  show String.mk _ = s
  rw [hfilter, hmap]

/-- The ok output of `cleanTitleId` is the full stripped/uppercased input,
passes the pattern, and cleaning it again returns it unchanged. -/
lemma cleanTitleId_ok (raw t : String) (h : cleanTitleId raw = .ok t) :
    t = stripUpper raw ∧ validTitleId t = true ∧ cleanTitleId t = .ok t := by
  unfold cleanTitleId at h ⊢
  by_cases hv : validTitleId (stripUpper raw) = true
  · simp [hv] at h
    subst h
    refine ⟨rfl, hv, ?_⟩
    rw [stripUpper_fixed _ hv]
    simp [hv]
  · simp [hv] at h

/-- C8: title-id cleaning is idempotent and case/separator-insensitive:
"bles-00799", "BLES 00799" and "BLES00799" all normalize to "BLES00799";
an input whose stripped form fails the pattern (wrong length or invalid
characters) fails with `InvalidTitleId`; an ok result is the full stripped
input, never a truncation. -/
theorem clean_title_id_spec :
    (∀ raw t, cleanTitleId raw = .ok t →
        t = stripUpper raw ∧ validTitleId t = true ∧ cleanTitleId t = .ok t) ∧
    (∀ raw, validTitleId (stripUpper raw) = false →
        cleanTitleId raw = .error .invalidTitleId) ∧
    cleanTitleId "bles-00799" = .ok "BLES00799" ∧
    cleanTitleId "BLES 00799" = .ok "BLES00799" ∧
    cleanTitleId "BLES00799" = .ok "BLES00799" ∧
    cleanTitleId "BLES007990" = .error .invalidTitleId ∧
    cleanTitleId "BLES0079" = .error .invalidTitleId ∧
    cleanTitleId "BLES0079X" = .error .invalidTitleId ∧
    cleanTitleId "BL3S00799" = .error .invalidTitleId := by
  refine ⟨cleanTitleId_ok, ?_, ?_, ?_, ?_, ?_, ?_, ?_, ?_⟩
  · intro raw hbad
    unfold cleanTitleId
    simp [hbad]
  all_goals rfl

/-- Witness for C8: idempotence applied at the cleaned form of
"bles-00799". -/
theorem clean_title_id_spec_witness :
    cleanTitleId "BLES00799" = .ok "BLES00799" :=
  (clean_title_id_spec.1 "bles-00799" "BLES00799" (by rfl)).2.2

/-- C5: the package entries sort strictly descending under the
dot-separated numeric comparator: versions ["1.02", "1.10", "1.2"] come out
as ["1.10", "1.2", "1.02"], "1.10" sorts above "1.2" because 10 > 2
numerically, even though "1.10" < "1.2" in plain lexicographic string
order. -/
theorem version_sort_numeric_desc :
    (sortPackages [pkgWithVersion "1.02", pkgWithVersion "1.10",
        pkgWithVersion "1.2"]).map PackageInfo.version =
      ["1.10", "1.2", "1.02"] ∧
    versionDescBefore "1.10" "1.2" = true ∧
    versionKey "1.10" = [1, 10] ∧ versionKey "1.2" = [1, 2] ∧
    lexLtChars ("1.10").data ("1.2").data = true ∧
    (fetchUpdatesCommand
        (fun _ => { successStatus := true, emptyBody := false,
                    parsed := .packages "G" [pkgWithVersion "1.02",
                      pkgWithVersion "1.10", pkgWithVersion "1.2"] })
        "BLES00799").results.map PackageInfo.version =
      ["1.10", "1.2", "1.02"] := by
  refine ⟨by decide, by decide, by decide, by decide, by decide, by rfl⟩

/-- C7: fetching a title with zero published packages yields a success
`FetchResult` with `results = []` and `error = null`; a failed fetch carries
a non-null error message, so the empty success value is distinct from every
failed value. -/
theorem fetch_empty_success :
    (∀ (endpoint : String → VendorResponse) raw id title,
        cleanTitleId raw = .ok id →
        endpoint id = { successStatus := true, emptyBody := false,
                        parsed := .packages title [] } →
        fetchUpdatesCommand endpoint raw =
          { results := [], error := none, game_title := title,
            cleaned_title_id := id }) ∧
    (∀ (endpoint : String → VendorResponse) raw e,
        fetchUpdates endpoint raw = .error e →
        (fetchUpdatesCommand endpoint raw).error = some (errorMessage e)) ∧
    (∀ r r' : FetchResult, r.error = none → r'.error ≠ none → r ≠ r') := by
  refine ⟨?_, ?_, ?_⟩
  · intro endpoint raw id title hclean hresp
    unfold fetchUpdatesCommand fetchUpdates
    rw [hclean]
    simp [hresp, sortPackages, sortDescBy]
  · intro endpoint raw e herr
    unfold fetchUpdatesCommand
    rw [herr]
  · intro r r' h h' heq
    exact h' (heq ▸ h)

/-- Witness for C7: the empty-package success at a concrete endpoint. -/
theorem fetch_empty_success_witness :
    fetchUpdatesCommand
        (fun _ => { successStatus := true, emptyBody := false,
                    parsed := .packages "God of War III" [] })
        "bles-00799" =
      { results := [], error := none, game_title := "God of War III",
        cleaned_title_id := "BLES00799" } :=
  fetch_empty_success.1
    (fun _ => { successStatus := true, emptyBody := false,
                parsed := .packages "God of War III" [] })
    "bles-00799" "BLES00799" "God of War III" (by rfl) (by rfl)

/-! Helper lemmas about the multi-part range plan. -/

/-- Every planned range ends at or before the total. -/
lemma partStop_le_total (total n i : Nat) (hi : i < n) :
    partStop total n i ≤ total := by
  unfold partStop
  by_cases h : i = n - 1
  · simp [h]
  · simp only [h, if_false]
    calc (i + 1) * (total / n) ≤ n * (total / n) :=
          mul_le_mul_right' (by omega) _
    _ = total / n * n := Nat.mul_comm _ _
    _ ≤ total := Nat.div_mul_le_self total n

/-- Every non-final part has the even chunk size. -/
lemma partLen_eq_of_lt (total n i : Nat) (hi : i + 1 < n) :
    partLen total n i = total / n := by
  unfold partLen partStop partStart
  have h : i ≠ n - 1 := by omega
  simp only [h, if_false]
  generalize total / n = c
  rw [Nat.succ_mul]
  generalize i * c = k
  omega

/-- The final part absorbs the remainder. -/
lemma partLen_last (total n : Nat) (hn : 0 < n) :
    partLen total n (n - 1) = total / n + total % n := by
  unfold partLen partStop partStart
  simp only [eq_self_iff_true, if_true]
  have hd := Nat.div_add_mod total n
  have h1 : (n - 1) * (total / n) + total / n = n * (total / n) := by
    rw [← Nat.succ_mul]
    congr 2
    omega
  have hle : (n - 1) * (total / n) ≤ total := by
    calc (n - 1) * (total / n) ≤ n * (total / n) := mul_le_mul_right' (by omega) _
    _ = total / n * n := Nat.mul_comm _ _
    _ ≤ total := Nat.div_mul_le_self total n
  rw [Nat.sub_eq_iff_eq_add hle]
  linarith [hd, h1]

/-- The planned part sizes sum to the total. -/
lemma sum_partLen (total n : Nat) (hn : 0 < n) :
    ∑ i ∈ Finset.range n, partLen total n i = total := by
  obtain ⟨m, rfl⟩ : ∃ m, n = m + 1 := ⟨n - 1, by omega⟩
  rw [Finset.sum_range_succ]
  have hlast : partLen total (m + 1) m = total / (m + 1) + total % (m + 1) := by
    have h := partLen_last total (m + 1) (by omega)
    simpa using h
  have hmid : ∀ i ∈ Finset.range m, partLen total (m + 1) i = total / (m + 1) := by
    intro i hi
    rw [Finset.mem_range] at hi
    exact partLen_eq_of_lt total (m + 1) i (by omega)
  rw [Finset.sum_congr rfl hmid, Finset.sum_const, Finset.card_range,
    smul_eq_mul, hlast]
  have hd := Nat.div_add_mod total (m + 1)
  have h1 : m * (total / (m + 1)) + total / (m + 1) =
      (m + 1) * (total / (m + 1)) := by ring
  linarith [hd, h1]

/-- Earlier parts end at or before later parts begin. -/
lemma partStop_le_partStart (total n i j : Nat) (hij : i < j) (hj : j < n) :
    partStop total n i ≤ partStart total n j := by
  unfold partStop partStart
  have h : i ≠ n - 1 := by omega
  simp only [h, if_false]
  exact mul_le_mul_right' (by omega) _

/-- The ranges cover exactly the interval from 0 to the total. -/
lemma mem_part_iff (total n x : Nat) (hn : 0 < n) (ht : n ≤ total) :
    x < total ↔
      ∃ i, i < n ∧ partStart total n i ≤ x ∧ x < partStop total n i := by
  have hcpos : 0 < total / n := Nat.div_pos ht hn
  constructor
  · intro hx
    by_cases hbig : x / (total / n) < n - 1
    · refine ⟨x / (total / n), by omega, Nat.div_mul_le_self x _, ?_⟩
      unfold partStop
      have h : x / (total / n) ≠ n - 1 := by omega
      simp only [h, if_false]
      have h1 := Nat.div_add_mod x (total / n)
      have h2 : x % (total / n) < total / n := Nat.mod_lt _ hcpos
      have h3 : (x / (total / n) + 1) * (total / n) =
          total / n * (x / (total / n)) + total / n := by ring
      rw [h3]
      linarith [h1, h2]
    · refine ⟨n - 1, by omega, ?_, ?_⟩
      · unfold partStart
        calc (n - 1) * (total / n) ≤ x / (total / n) * (total / n) :=
              mul_le_mul_right' (by omega) _
        _ ≤ x := Nat.div_mul_le_self x _
      · unfold partStop
        simp [hx]
  · rintro ⟨i, hi, -, hstop⟩
    exact lt_of_lt_of_le hstop (partStop_le_total total n i hi)

/-- Under the accumulation discipline, the aggregate equals the total
exactly when every part has finished. -/
lemma run_downloaded_iff (total n : Nat) (hn : 0 < n)
    (r : PartRun) (hv : partRunValid total n r) :
    runDownloaded n r = total ↔ runDone n r = true := by
  unfold runDownloaded runDone
  rw [List.all_eq_true]
  constructor
  · intro hsum
    by_contra hnot
    push_neg at hnot
    obtain ⟨i, hmem, hfin⟩ := hnot
    rw [List.mem_range] at hmem
    have hle : ∀ j ∈ Finset.range n, r.bytes j ≤ partLen total n j := by
      intro j hj
      rw [Finset.mem_range] at hj
      cases hb : r.finished j with
      | false => exact le_of_lt ((hv j hj).2 hb)
      | true => exact le_of_eq ((hv j hj).1 hb)
    have hfalse : r.finished i = false := by
      cases hb : r.finished i with
      | false => rfl
      | true => exact absurd hb hfin
    have hlt : r.bytes i < partLen total n i := (hv i hmem).2 hfalse
    have hstrict := Finset.sum_lt_sum hle ⟨i, Finset.mem_range.mpr hmem, hlt⟩
    rw [sum_partLen total n hn] at hstrict
    omega
  · intro hall
    have heq : ∀ j ∈ Finset.range n, r.bytes j = partLen total n j := by
      intro j hj
      rw [Finset.mem_range] at hj
      exact (hv j hj).1 (hall j (List.mem_range.mpr hj))
    rw [Finset.sum_congr rfl heq, sum_partLen total n hn]

/-- C4: for a MultiPart download of known total size split into n parts,
the planned byte ranges are contiguous, pairwise disjoint, near-equal in
size with the final range absorbing the remainder, their union is exactly
the interval from 0 to the total, and under the accumulation discipline the
downloaded-bytes aggregate equals the total exactly once done is true. -/
theorem multipart_partition_correct (total n : Nat)
    (hn : 0 < n) (ht : n ≤ total) :
    (partRangeList total n).length = n ∧
    partStart total n 0 = 0 ∧
    partStop total n (n - 1) = total ∧
    (∀ i, i + 1 < n → partStop total n i = partStart total n (i + 1)) ∧
    (∀ i j, i < j → j < n → partStop total n i ≤ partStart total n j) ∧
    (∀ x, x < total ↔
        ∃ i, i < n ∧ partStart total n i ≤ x ∧ x < partStop total n i) ∧
    (∀ i, i + 1 < n → partLen total n i = total / n) ∧
    partLen total n (n - 1) = total / n + total % n ∧
    (∑ i ∈ Finset.range n, partLen total n i) = total ∧
    (∀ r : PartRun, partRunValid total n r →
        (runDownloaded n r = total ↔ runDone n r = true)) := by
  refine ⟨by simp [partRangeList], by simp [partStart], by simp [partStop],
    ?_, ?_, ?_, ?_, partLen_last total n hn, sum_partLen total n hn, ?_⟩
  · intro i hi
    unfold partStop partStart
    have h : i ≠ n - 1 := by omega
    simp [h]
  · intro i j hij hj
    exact partStop_le_partStart total n i j hij hj
  · intro x
    exact mem_part_iff total n x hn ht
  · intro i hi
    exact partLen_eq_of_lt total n i hi
  · intro r hv
    exact run_downloaded_iff total n hn r hv

/-- Witness for C4: the plan for a 10-byte resource in 3 parts, and the
aggregate of a fully finished run. -/
theorem multipart_partition_correct_witness :
    0 < 3 ∧ 3 ≤ 10 ∧ partRangeList 10 3 = [(0, 3), (3, 6), (6, 10)] ∧
    (runDownloaded 3 { bytes := partLen 10 3, finished := fun _ => true } = 10 ↔
      runDone 3 { bytes := partLen 10 3, finished := fun _ => true } = true) :=
  ⟨by decide, by decide, by decide,
    (multipart_partition_correct 10 3 (by decide)
        (by decide)).2.2.2.2.2.2.2.2.2
      { bytes := partLen 10 3, finished := fun _ => true }
      (by unfold partRunValid; decide)⟩

/-! Helper lemmas about the download manager's registry. -/

/-- Lookup after a running-job transition: the first match is transformed
exactly when it was still running. -/
lemma find?_updateRunning (id : String) (f : Job → Job)
    (jobs : List (String × Job)) :
    (updateRunning id f jobs).find? (fun pr => pr.1 == id) =
      (jobs.find? (fun pr => pr.1 == id)).map
        (fun pr => if pr.2.progress.done then pr else (pr.1, f pr.2)) := by
  induction jobs with
  | nil => rfl
  | cons hd tl ih =>
      show List.find? (fun pr => pr.1 == id)
          ((if hd.1 == id && !hd.2.progress.done then (hd.1, f hd.2) else hd) ::
            updateRunning id f tl) = _
      by_cases hk : (hd.1 == id) = true
      · by_cases hdone : hd.2.progress.done = true
        · rw [if_neg (by simp [hk, hdone])]
          simp [List.find?_cons, hk, hdone]
        · rw [if_pos (by simp [hk, hdone])]
          simp [List.find?_cons, hk, hdone]
      · rw [if_neg (by simp [hk])]
        simp [List.find?_cons, hk, ih]

/-- Generic polling lemma: a transition that rewrites the progress of the
still-running job of the given id is visible in the next snapshot. -/
lemma getProgress_updateRunning (m : Manager) (id : String) (p : ProgressState)
    (g : ProgressState → ProgressState)
    (hrun : m.getProgress id = .ok p) (hnd : p.done = false) :
    Manager.getProgress
        { m with jobs := updateRunning id (mapProgress g) m.jobs } id =
      .ok (g p) := by
  obtain ⟨pr, hpr, hprog⟩ :
      ∃ pr, m.jobs.find? (fun x => x.1 == id) = some pr ∧ pr.2.progress = p := by
    unfold Manager.getProgress Manager.find at hrun
    cases h : m.jobs.find? (fun x => x.1 == id) with
    | none => rw [h] at hrun; simp at hrun
    | some pr => rw [h] at hrun; simp at hrun; exact ⟨pr, rfl, hrun⟩
  unfold Manager.getProgress Manager.find
  rw [find?_updateRunning, hpr]
  simp [mapProgress, hprog, hnd]

/-- Cancelling makes the running job's next snapshot done, carrying the
cancellation error. -/
lemma getProgress_cancelDownload (m : Manager) (id : String)
    (p : ProgressState) (hrun : m.getProgress id = .ok p)
    (hnd : p.done = false) :
    (m.cancelDownload id).getProgress id =
      .ok { p with done := true, error := some cancelErrorMessage } :=
  getProgress_updateRunning m id p
    (fun q => { q with done := true, error := some cancelErrorMessage })
    hrun hnd

/-- A recorded failure makes the running job's next snapshot done, carrying
that error. -/
lemma getProgress_failJob (m : Manager) (id : String) (p : ProgressState)
    (e : String) (hrun : m.getProgress id = .ok p) (hnd : p.done = false) :
    (m.failJob id e).getProgress id =
      .ok { p with done := true, error := some e } :=
  getProgress_updateRunning m id p
    (fun q => { q with done := true, error := some e }) hrun hnd

/-- Successful completion makes the running job's next snapshot done with
all bytes and no new error. -/
lemma getProgress_completeJob (m : Manager) (id : String) (p : ProgressState)
    (hrun : m.getProgress id = .ok p) (hnd : p.done = false) :
    (m.completeJob id).getProgress id =
      .ok { p with downloaded := p.total, done := true } :=
  getProgress_updateRunning m id p
    (fun q => { q with downloaded := q.total, done := true }) hrun hnd

/-- After a cancel, every registry entry of that id is in a terminal
state. -/
lemma done_after_cancel (id : String) (jobs : List (String × Job)) :
    ∀ pr ∈ updateRunning id cancelJob jobs,
      pr.1 == id → pr.2.progress.done = true := by
  intro pr hmem hkey
  unfold updateRunning at hmem
  rw [List.mem_map] at hmem
  obtain ⟨pr0, hpr0, heq⟩ := hmem
  by_cases hc : (pr0.1 == id && !pr0.2.progress.done) = true
  · rw [if_pos hc] at heq
    rw [← heq]
    simp [cancelJob]
  · rw [if_neg hc] at heq
    rw [← heq] at hkey ⊢
    simp only [Bool.and_eq_true, Bool.not_eq_true'] at hc
    rcases Bool.eq_false_or_eq_true pr0.2.progress.done with hd | hd
    · exact hd
    · exact absurd ⟨hkey, hd⟩ hc

/-- Removing a job after cancelling it leaves no registry entry of that id:
polling then fails with `JobNotFound`. -/
lemma cancel_then_remove_not_found (m : Manager) (id : String) :
    ((m.cancelDownload id).removeJob id).getProgress id =
      .error .jobNotFound := by
  unfold Manager.getProgress Manager.find Manager.removeJob
  unfold Manager.cancelDownload
  have hnone : ((updateRunning id cancelJob m.jobs).filter
      (fun pr => !(pr.1 == id && terminalJob pr.2))).find?
        (fun pr => pr.1 == id) = none := by
    rw [List.find?_eq_none]
    intro pr hpr hkey
    rw [List.mem_filter] at hpr
    obtain ⟨hmem, hcond⟩ := hpr
    have hdone := done_after_cancel id m.jobs pr hmem hkey
    simp [hkey, terminalJob, hdone] at hcond
  rw [hnone]
  rfl

/-- Looking up the id returned by `startDownload` on a manager whose
counter id is fresh finds the newly admitted job. -/
lemma find_startDownload (m : Manager) (url dest fn : String)
    (req : DownloadMode) (probe : ProbeResult)
    (hfresh : m.find (jobIdOf m.nextId) = none) :
    (m.startDownload url dest fn req probe).1.find
        (m.startDownload url dest fn req probe).2 =
      some { url := url, destPath := dest, mode := chooseMode req probe,
             progress := initialProgress fn probe } := by
  unfold Manager.startDownload Manager.find
  unfold Manager.find at hfresh
  have hnone : m.jobs.find? (fun pr => pr.1 == jobIdOf m.nextId) = none := by
    cases h : m.jobs.find? (fun pr => pr.1 == jobIdOf m.nextId) with
    | none => rfl
    | some pr => rw [h] at hfresh; simp at hfresh
  rw [List.find?_append, hnone]
  simp [List.find?_cons]

/-- Polling the id returned by `startDownload` yields the freshly admitted
progress snapshot. -/
lemma getProgress_startDownload (m : Manager) (url dest fn : String)
    (req : DownloadMode) (probe : ProbeResult)
    (hfresh : m.find (jobIdOf m.nextId) = none) :
    (m.startDownload url dest fn req probe).1.getProgress
        (m.startDownload url dest fn req probe).2 =
      .ok (initialProgress fn probe) := by
  unfold Manager.getProgress
  rw [find_startDownload m url dest fn req probe hfresh]

/-- C1: cancelling a running job keeps the failure observable: the next
`get_progress` on that job reports done with the distinguished cancellation
error (the message of the `Cancelled` taxonomy entry), so the failure is
attached to polled state; only after `remove_job` does `get_progress` fail
with `JobNotFound`. -/
theorem cancel_observable (m : Manager) (id : String) (p : ProgressState)
    (hrun : m.getProgress id = .ok p) (hnd : p.done = false) :
    (m.cancelDownload id).getProgress id =
      .ok { p with done := true, error := some cancelErrorMessage } ∧
    cancelErrorMessage = errorMessage .cancelled ∧
    ((m.cancelDownload id).removeJob id).getProgress id =
      .error .jobNotFound :=
  ⟨getProgress_cancelDownload m id p hrun hnd, rfl,
    cancel_then_remove_not_found m id⟩

/-- Witness for C1: a freshly started job on the empty manager. -/
theorem cancel_observable_witness :
    ((emptyManager.startDownload "u" "d" "f.pkg" .direct
        { totalLength := some 100, acceptsRanges := true }).1.cancelDownload
          "job-0").getProgress "job-0" =
      .ok { filename := some "f.pkg", total := 100, downloaded := 0,
            done := true, error := some cancelErrorMessage } ∧
    cancelErrorMessage = errorMessage .cancelled ∧
    (((emptyManager.startDownload "u" "d" "f.pkg" .direct
        { totalLength := some 100, acceptsRanges := true }).1.cancelDownload
          "job-0").removeJob "job-0").getProgress "job-0" =
      .error .jobNotFound :=
  cancel_observable
    (emptyManager.startDownload "u" "d" "f.pkg" .direct
      { totalLength := some 100, acceptsRanges := true }).1
    "job-0"
    { filename := some "f.pkg", total := 100, downloaded := 0,
      done := false, error := none }
    (by rfl) (by rfl)

/-- C2: once admitted, `start_download` returns the job id itself (the call
has no failure channel), the job is immediately pollable, and a
download-path failure is observed only through polling: it is recorded on
the job's progress state as a populated error with the done flag set. -/
theorem start_returns_id_failures_polled (m : Manager)
    (url dest fn : String) (req : DownloadMode) (probe : ProbeResult)
    (hfresh : m.find (jobIdOf m.nextId) = none) :
    (m.startDownload url dest fn req probe).2 = jobIdOf m.nextId ∧
    (m.startDownload url dest fn req probe).1.getProgress
        (m.startDownload url dest fn req probe).2 =
      .ok (initialProgress fn probe) ∧
    (initialProgress fn probe).done = false ∧
    (initialProgress fn probe).error = none ∧
    (∀ e, ((m.startDownload url dest fn req probe).1.failJob
        (m.startDownload url dest fn req probe).2 e).getProgress
          (m.startDownload url dest fn req probe).2 =
      .ok { initialProgress fn probe with done := true, error := some e }) :=
  ⟨rfl, getProgress_startDownload m url dest fn req probe hfresh, rfl, rfl,
    fun e => getProgress_failJob _ _ (initialProgress fn probe) e
      (getProgress_startDownload m url dest fn req probe hfresh) rfl⟩

/-- Witness for C2: a job started on the empty manager, then a recorded
disk-write failure observed by the next poll. -/
theorem start_returns_id_failures_polled_witness :
    (emptyManager.startDownload "u" "d" "f.pkg" .direct
        { totalLength := some 50, acceptsRanges := false }).2 = "job-0" ∧
    (emptyManager.startDownload "u" "d" "f.pkg" .direct
        { totalLength := some 50, acceptsRanges := false }).1.getProgress
          "job-0" =
      .ok { filename := some "f.pkg", total := 50, downloaded := 0,
            done := false, error := none } ∧
    ((emptyManager.startDownload "u" "d" "f.pkg" .direct
        { totalLength := some 50, acceptsRanges := false }).1.failJob
          "job-0" "disk full").getProgress "job-0" =
      .ok { filename := some "f.pkg", total := 50, downloaded := 0,
            done := true, error := some "disk full" } := by
  have h := start_returns_id_failures_polled emptyManager "u" "d" "f.pkg"
    .direct { totalLength := some 50, acceptsRanges := false } (by rfl)
  exact ⟨h.1, h.2.1, h.2.2.2.2 "disk full"⟩

/-- C6: a MultiPart request against a probe where ranges are unusable (no
range support, unknown total, or a total too small to usefully split) is
silently substituted with Direct mode: the admitted job runs in Direct
mode, no error is ever recorded for the substitution, and on successful
completion the poll reports done with a null error. -/
theorem multipart_fallback_direct (m : Manager) (url dest fn : String)
    (n : Nat) (probe : ProbeResult)
    (hfresh : m.find (jobIdOf m.nextId) = none)
    (hno : rangesUsable probe n = false) :
    ((m.startDownload url dest fn (.multiPart n) probe).1.find
        (m.startDownload url dest fn (.multiPart n) probe).2).map Job.mode =
      some .direct ∧
    (m.startDownload url dest fn (.multiPart n) probe).1.getProgress
        (m.startDownload url dest fn (.multiPart n) probe).2 =
      .ok (initialProgress fn probe) ∧
    (initialProgress fn probe).error = none ∧
    ((m.startDownload url dest fn (.multiPart n) probe).1.completeJob
        (m.startDownload url dest fn (.multiPart n) probe).2).getProgress
          (m.startDownload url dest fn (.multiPart n) probe).2 =
      .ok { initialProgress fn probe with
            downloaded := (initialProgress fn probe).total, done := true } ∧
    ({ initialProgress fn probe with
       downloaded := (initialProgress fn probe).total,
       done := true } : ProgressState).error = none := by
  refine ⟨?_, getProgress_startDownload m url dest fn _ probe hfresh, rfl,
    ?_, rfl⟩
  · rw [find_startDownload m url dest fn _ probe hfresh]
    simp [chooseMode, hno]
  · exact getProgress_completeJob _ _ (initialProgress fn probe)
      (getProgress_startDownload m url dest fn _ probe hfresh) rfl

/-- Witness for C6: a 4-part request against a server that does not accept
ranges, on the empty manager. -/
theorem multipart_fallback_direct_witness :
    ((emptyManager.startDownload "u" "d" "f.pkg" (.multiPart 4)
        { totalLength := some 100, acceptsRanges := false }).1.find
          "job-0").map Job.mode = some .direct ∧
    ((emptyManager.startDownload "u" "d" "f.pkg" (.multiPart 4)
        { totalLength := some 100, acceptsRanges := false }).1.completeJob
          "job-0").getProgress "job-0" =
      .ok { filename := some "f.pkg", total := 100, downloaded := 100,
            done := true, error := none } := by
  have h := multipart_fallback_direct emptyManager "u" "d" "f.pkg" 4
    { totalLength := some 100, acceptsRanges := false } (by rfl) (by rfl)
  exact ⟨h.1, h.2.2.2.1⟩

/-- C3: the command surface matches the specification's section 6: the
frontend invokes `start_download` with exactly the six parameters (url,
filename, downloadPath, gameTitle, titleId, multiPart flag) drawn from the
selected package and search result; the returned string job id is tracked;
and that id is accepted by `get_download_progress`, `cancel_download` and
`remove_download_job` on the manager. -/
theorem command_surface_matches (sr : FetchResult) (pkg : PackageInfo)
    (path : String) (mp : Bool) (downloads : List DownloadJob)
    (start : StartDownloadArgs → Except String String) (jid : String)
    (hstart : start (mkStartArgs sr pkg path mp) = .ok jid)
    (m : Manager) (url dest fn : String) (req : DownloadMode)
    (probe : ProbeResult) (hfresh : m.find (jobIdOf m.nextId) = none) :
    (startDownloadFrontend start (some sr) pkg path mp downloads).2 =
      [{ url := pkg.url, filename := pkg.filename, downloadPath := path,
         gameTitle := sr.game_title, titleId := sr.cleaned_title_id,
         multiPart := mp }] ∧
    (startDownloadFrontend start (some sr) pkg path mp downloads).1 =
      downloads ++ [{ jobId := jid, package := pkg, progress := none }] ∧
    (m.startDownload url dest fn req probe).1.getProgress
        (m.startDownload url dest fn req probe).2 =
      .ok (initialProgress fn probe) ∧
    (((m.startDownload url dest fn req probe).1.cancelDownload
        (m.startDownload url dest fn req probe).2).removeJob
          (m.startDownload url dest fn req probe).2).getProgress
            (m.startDownload url dest fn req probe).2 =
      .error .jobNotFound := by
  refine ⟨?_, ?_, getProgress_startDownload m url dest fn req probe hfresh,
    cancel_then_remove_not_found _ _⟩
  · unfold startDownloadFrontend
    simp only [mkStartArgs] at hstart ⊢
    simp only [hstart]
  · unfold startDownloadFrontend
    simp only [mkStartArgs] at hstart ⊢
    simp only [hstart]

/-- Witness for C3: a concrete package and search result against a backend
returning the id "job-0". -/
theorem command_surface_matches_witness :
    (startDownloadFrontend (fun _ => .ok "job-0")
        (some { results := [pkgWithVersion "1.02"], error := none,
                game_title := "Demo", cleaned_title_id := "BLES00799" })
        (pkgWithVersion "1.02") "/tmp" true []).2 =
      [{ url := "", filename := "", downloadPath := "/tmp",
         gameTitle := "Demo", titleId := "BLES00799", multiPart := true }] ∧
    (startDownloadFrontend (fun _ => .ok "job-0")
        (some { results := [pkgWithVersion "1.02"], error := none,
                game_title := "Demo", cleaned_title_id := "BLES00799" })
        (pkgWithVersion "1.02") "/tmp" true []).1 =
      [{ jobId := "job-0", package := pkgWithVersion "1.02",
         progress := none }] := by
  have h := command_surface_matches
    { results := [pkgWithVersion "1.02"], error := none,
      game_title := "Demo", cleaned_title_id := "BLES00799" }
    (pkgWithVersion "1.02") "/tmp" true [] (fun _ => .ok "job-0") "job-0"
    (by rfl) emptyManager "u" "d" "f.pkg" .direct
    { totalLength := some 10, acceptsRanges := true } (by rfl)
  exact ⟨h.1, h.2.1⟩

/-- Counterexample to C9 as stated: the poll-loop guard of App.tsx line 312
is JavaScript truthiness (`progress.done && !progress.error`), so a poll
returning done with the empty-string error — a non-null error — still
triggers a `remove_download_job` invocation. -/
theorem remove_on_empty_error_counterexample :
    (updateDownloadProgress (fun _ => .ok emptyErrorProgress)
        [trackedJob1]).2.2 = ["j1"] ∧
    emptyErrorProgress.error ≠ none := by
  constructor
  · rfl
  · decide

/-- C9 amended: the frontend invokes `remove_download_job` for a job only
after a poll of that job returned done with a JavaScript-falsy error (null
or the empty string) — in particular never after a poll reporting a
non-empty error — and the cancel handler drops the job from the tracked
list without ever invoking `remove_download_job`. -/
theorem remove_only_after_falsy_error :
    (∀ (poll : String → Except String ProgressInfo)
        (downloads : List DownloadJob) (j : String),
        j ∈ (updateDownloadProgress poll downloads).2.2 →
        ∃ d ∈ downloads, d.jobId = j ∧ optDone d.progress = false ∧
          ∃ p, poll j = .ok p ∧ p.done = true ∧
            (p.error = none ∨ p.error = some "")) ∧
    (∀ (cancel : String → Except String Unit) (jid : String)
        (downloads : List DownloadJob),
        (cancelDownloadFrontend cancel jid downloads).2.2 = [] ∧
        ∀ u, cancel jid = .ok u →
          (cancelDownloadFrontend cancel jid downloads).1 =
            downloads.filter (fun d => !(d.jobId == jid))) := by
  constructor
  · intro poll downloads j hj
    unfold updateDownloadProgress at hj
    rw [List.mem_flatMap] at hj
    obtain ⟨d, hd, hjd⟩ := hj
    refine ⟨d, hd, ?_⟩
    unfold updateEntry at hjd
    by_cases hdone : optDone d.progress = true
    · rw [if_pos hdone] at hjd
      simp at hjd
    · rw [if_neg hdone] at hjd
      cases hpoll : poll d.jobId with
      | error e =>
          rw [hpoll] at hjd
          simp at hjd
      | ok p =>
          rw [hpoll] at hjd
          by_cases hcond : (p.done && !strTruthy p.error) = true
          · simp only [hcond, if_true, List.mem_singleton] at hjd
            subst hjd
            obtain ⟨h1, h2⟩ := Bool.and_eq_true _ _ |>.mp hcond
            refine ⟨rfl, by simpa using hdone, p, hpoll, h1, ?_⟩
            cases he : p.error with
            | none => exact Or.inl rfl
            | some s =>
                rw [he] at h2
                simp [strTruthy] at h2
                exact Or.inr (by rw [h2])
          · simp [hcond] at hjd
  · intro cancel jid downloads
    unfold cancelDownloadFrontend
    cases hc : cancel jid with
    | ok u => exact ⟨rfl, fun _ _ => rfl⟩
    | error e =>
        refine ⟨rfl, ?_⟩
        intro u hu
        simp at hu

/-- Witness for C9 amended: a null-error done poll on one tracked job. -/
theorem remove_only_after_falsy_error_witness :
    ∃ d ∈ [trackedJob1], d.jobId = "j1" ∧ optDone d.progress = false ∧
      ∃ p, (fun _ : String =>
          (Except.ok doneOkProgress : Except String ProgressInfo)) "j1" =
            .ok p ∧
        p.done = true ∧ (p.error = none ∨ p.error = some "") :=
  remove_only_after_falsy_error.1 (fun _ => .ok doneOkProgress)
    [trackedJob1] "j1" (by decide)

/-- C10: once a tracked entry's recorded progress is done, a poll pass
leaves that entry unchanged at its position and never issues another
`get_download_progress` for its job id (tracked ids being distinct). -/
theorem done_jobs_not_polled (poll : String → Except String ProgressInfo)
    (downloads : List DownloadJob) (i : Nat) (p : ProgressInfo)
    (hi : i < downloads.length)
    (hdone : (downloads.get ⟨i, hi⟩).progress = some p) (hp : p.done = true)
    (hnodup : (downloads.map DownloadJob.jobId).Nodup) :
    (updateDownloadProgress poll downloads).1[i]? =
      some (downloads.get ⟨i, hi⟩) ∧
    (downloads.get ⟨i, hi⟩).jobId ∉
      (updateDownloadProgress poll downloads).2.1 := by
  have hod : optDone (downloads.get ⟨i, hi⟩).progress = true := by
    rw [hdone]
    exact hp
  constructor
  · show (downloads.map (fun d => (updateEntry poll d).1))[i]? = _
    rw [List.getElem?_map, List.getElem?_eq_getElem hi]
    have hfix : (updateEntry poll (downloads.get ⟨i, hi⟩)).1 =
        downloads.get ⟨i, hi⟩ := by
      unfold updateEntry
      rw [if_pos hod]
    simp only [Option.map_some']
    rw [show downloads[i] = downloads.get ⟨i, hi⟩ from rfl, hfix]
  · intro hmem
    unfold updateDownloadProgress at hmem
    rw [List.mem_flatMap] at hmem
    obtain ⟨d', hd', hjd⟩ := hmem
    have hkey : optDone d'.progress = false ∧
        d'.jobId = (downloads.get ⟨i, hi⟩).jobId := by
      unfold updateEntry at hjd
      by_cases hod' : optDone d'.progress = true
      · rw [if_pos hod'] at hjd
        simp at hjd
      · refine ⟨by simpa using hod', ?_⟩
        rw [if_neg hod'] at hjd
        cases hpoll : poll d'.jobId with
        | error e =>
            rw [hpoll] at hjd
            simp at hjd
            exact hjd.symm
        | ok q =>
            rw [hpoll] at hjd
            simp at hjd
            exact hjd.symm
    obtain ⟨hod', hjeq⟩ := hkey
    have hdmem : downloads.get ⟨i, hi⟩ ∈ downloads :=
      downloads.get_mem i hi
    have heq : d' = downloads.get ⟨i, hi⟩ :=
      List.inj_on_of_nodup_map hnodup hd' hdmem hjeq
    rw [heq] at hod'
    rw [hod] at hod'
    exact Bool.noConfusion hod'

/-- Witness for C10: one tracked entry whose progress is done, against a
poll backend that would fail if ever consulted. -/
theorem done_jobs_not_polled_witness :
    (updateDownloadProgress (fun _ => .error "boom") [doneJob]).1[0]? =
      some doneJob ∧
    "j2" ∉ (updateDownloadProgress (fun _ => .error "boom") [doneJob]).2.1 :=
  done_jobs_not_polled (fun _ => .error "boom") [doneJob] 0 doneOkProgress
    (by decide) (by rfl) (by rfl) (by decide)
